import Mathlib

/-!
Verification of the per-session serialized execution pipeline and the
bounded recency cache of the claudegram repository.

The embedding is shallow: the JavaScript `Map`-based module state of the
request-queue module becomes a record of total functions from session keys,
and each exported function of the module becomes a Lean function from state
to state.  Asynchronous settlement of an in-flight handler is modelled by
splitting `processQueue` at its single `await`: the synchronous prefix is
`processQueue` below, and the continuation that runs when the handler
settles (the `try`/`catch`/`finally` tail) is `settle`.  Observable effects
(starting a handler, resolving or rejecting a caller, marking cancellation,
issuing a cooperative interrupt, firing the abort signal) are recorded as an
explicit action trace so that ordering properties can be stated.

The `BoundedMap` cache (src/utils/bounded-map.ts) is embedded as a list of
key/value pairs in insertion order, mirroring JavaScript `Map` iteration
order; `Map.prototype.delete` removes the single entry with the given key,
which on a duplicate-free association list is `List.eraseP`.
-/

/-- JavaScript `Error` objects, abstracted to their message. -/
structure JsError where
  msg : String
deriving DecidableEq, Repr

/-- A JavaScript value that an operation can throw: either an `Error`
instance or any other value, abstracted to its string conversion
(`String(error)`). -/
inductive JsValue where
  | jsErr (e : JsError)
  | other (str : String)
deriving DecidableEq, Repr

/-- The conversion applied by `processQueue` before rejecting:
`error instanceof Error ? error : new Error(String(error))`. -/
def toRejectError : JsValue → JsError
  | JsValue.jsErr e => e
  | JsValue.other s => JsError.mk s

/-- How an in-flight handler settles: fulfilled, or rejected with a thrown
value. -/
inductive Outcome where
  | ok
  | threw (v : JsValue)
deriving DecidableEq, Repr

/-- Session keys are opaque strings. -/
abbrev Key := String

/-- Pointwise update of a key-indexed table, modelling `Map.set` /
`Map.delete` on the module-level maps. -/
def upd {α : Type} (f : Key → α) (k : Key) (v : α) : Key → α :=
  fun k2 => if k2 = k then v else f k2

/-- The module-level state of the request-queue module: `pendingQueues`,
`processingFlags`, `activeQueries`, `activeAbortControllers` and
`cancelledChats`, each keyed by session key.  Queued requests are modelled
by identifiers (`Nat`), standing for the distinct request objects created by
`queueRequest`.  Query handles and abort controllers are opaque, so only
their presence is tracked.  `executing` is the request whose handler is
currently being awaited by `processQueue` for that key (implicit in the
JavaScript control flow). -/
structure QState where
  pendingQueues : Key → List Nat
  processingFlags : Key → Bool
  activeQueries : Key → Bool
  activeAbortControllers : Key → Bool
  cancelledChats : Key → Bool
  executing : Key → Option Nat

/-- The observable actions of the module, in program order. -/
inductive Act where
  | enqueue (k : Key) (r : Nat)
  | start (k : Key) (r : Nat)
  | resolve (k : Key) (r : Nat)
  | rejectOp (k : Key) (r : Nat) (e : JsError)
  | rejectCleared (k : Key) (r : Nat)
  | markCancelled (k : Key)
  | interrupt (k : Key)
  | abortSignal (k : Key)
deriving DecidableEq, Repr

/-- `isProcessing`: `processingFlags.get(sessionKey) === true`. -/
def isProcessing (s : QState) (k : Key) : Bool :=
  s.processingFlags k

/-- `getQueuePosition`: length of the pending queue (0 when absent). -/
def getQueuePosition (s : QState) (k : Key) : Nat :=
  (s.pendingQueues k).length

/-- `isCancelled`: membership in `cancelledChats`. -/
def isCancelled (s : QState) (k : Key) : Bool :=
  s.cancelledChats k

/-- `clearCancelled`: `cancelledChats.delete(sessionKey)`. -/
def clearCancelled (s : QState) (k : Key) : QState :=
  { s with cancelledChats := upd s.cancelledChats k false }

/-- `setActiveQuery`: `activeQueries.set(sessionKey, q)`. -/
def setActiveQuery (s : QState) (k : Key) : QState :=
  { s with activeQueries := upd s.activeQueries k true }

/-- `clearActiveQuery`: `activeQueries.delete(sessionKey)`. -/
def clearActiveQuery (s : QState) (k : Key) : QState :=
  { s with activeQueries := upd s.activeQueries k false }

/-- `setAbortController`: `activeAbortControllers.set(sessionKey, c)`. -/
def setAbortController (s : QState) (k : Key) : QState :=
  { s with activeAbortControllers := upd s.activeAbortControllers k true }

/-- `clearAbortController`: `activeAbortControllers.delete(sessionKey)`. -/
def clearAbortController (s : QState) (k : Key) : QState :=
  { s with activeAbortControllers := upd s.activeAbortControllers k false }

/-- The synchronous prefix of `processQueue`, up to (and including) starting
the head request's handler: return early if the flag is set or the queue is
empty; otherwise set the flag, shift the head and invoke its handler. -/
def processQueue (s : QState) (k : Key) : QState × List Act :=
  if s.processingFlags k then (s, [])
  else
    match s.pendingQueues k with
    | [] => (s, [])
    | r :: rest =>
      ({ s with
          processingFlags := upd s.processingFlags k true,
          pendingQueues := upd s.pendingQueues k rest,
          executing := upd s.executing k (some r) },
        [Act.start k r])

/-- `queueRequest`: append the new request to the session's queue (creating
the queue if absent) and trigger a drain attempt. -/
def queueRequest (s : QState) (k : Key) (r : Nat) : QState × List Act :=
  let s1 : QState :=
    { s with pendingQueues := upd s.pendingQueues k (s.pendingQueues k ++ [r]) }
  let d := processQueue s1 k
  (d.1, Act.enqueue k r :: d.2)

/-- The unconditional cleanup of `processQueue`'s `finally` block:
`processingFlags.set(k, false)`, `clearAbortController`, `clearActiveQuery`,
`clearCancelled`; the awaited request is no longer executing. -/
def settleCleanup (s : QState) (k : Key) : QState :=
  { s with
      processingFlags := upd s.processingFlags k false,
      activeAbortControllers := upd s.activeAbortControllers k false,
      activeQueries := upd s.activeQueries k false,
      cancelledChats := upd s.cancelledChats k false,
      executing := upd s.executing k none }

/-- The continuation of `processQueue` after the awaited handler settles:
resolve or reject the caller (rejections wrap non-`Error` values), then run
the `finally` cleanup and re-drain if the queue is non-empty.  A no-op when
no handler is being awaited for the key (no settlement can occur then). -/
def settle (s : QState) (k : Key) (o : Outcome) : QState × List Act :=
  match s.executing k with
  | none => (s, [])
  | some r =>
    let a1 : Act :=
      match o with
      | Outcome.ok => Act.resolve k r
      | Outcome.threw v => Act.rejectOp k r (toRejectError v)
    let s1 := settleCleanup s k
    let d :=
      if (s1.pendingQueues k).isEmpty then (s1, [])
      else processQueue s1 k
    (d.1, a1 :: d.2)

/-- `cancelRequest` (soft cancel): if a query handle is registered, mark the
chat cancelled, issue the cooperative interrupt (its own failure is caught
and logged) and deregister the handle; otherwise fall back to the abort
controller; otherwise return `false`.  Returns the new state, the action
trace in program order, and the boolean result. -/
def cancelRequest (s : QState) (k : Key) : QState × List Act × Bool :=
  if s.activeQueries k then
    ({ s with
        cancelledChats := upd s.cancelledChats k true,
        activeQueries := upd s.activeQueries k false },
      [Act.markCancelled k, Act.interrupt k], true)
  else if s.activeAbortControllers k then
    ({ s with
        cancelledChats := upd s.cancelledChats k true,
        activeAbortControllers := upd s.activeAbortControllers k false },
      [Act.markCancelled k, Act.abortSignal k], true)
  else (s, [], false)

/-- `resetRequest` (hard reset): like the soft cancel, but in the
query-handle branch the abort controller (when present) is additionally
fired and both registrations are cleared. -/
def resetRequest (s : QState) (k : Key) : QState × List Act × Bool :=
  if s.activeQueries k then
    ({ s with
        cancelledChats := upd s.cancelledChats k true,
        activeQueries := upd s.activeQueries k false,
        activeAbortControllers := upd s.activeAbortControllers k false },
      Act.markCancelled k :: Act.interrupt k ::
        (if s.activeAbortControllers k then [Act.abortSignal k] else []),
      true)
  else if s.activeAbortControllers k then
    ({ s with
        cancelledChats := upd s.cancelledChats k true,
        activeAbortControllers := upd s.activeAbortControllers k false },
      [Act.markCancelled k, Act.abortSignal k], true)
  else (s, [], false)

/-- `clearQueue`: reject every waiting request with a `Queue cleared` error,
empty the queue in place, and return the number discarded. -/
def clearQueue (s : QState) (k : Key) : QState × List Act × Nat :=
  let q := s.pendingQueues k
  ({ s with pendingQueues := upd s.pendingQueues k [] },
    q.map (fun r => Act.rejectCleared k r),
    q.length)

/-- External stimuli driving the module.  `submit` is a `queueRequest` call
with a fresh request identifier; `settleEv` is the settlement of the
currently awaited handler; `regQuery`/`regController` are the registrations
performed by the in-flight operation itself (the agent layer), hence no-ops
while no call is executing for the key. -/
inductive Event where
  | submit (k : Key) (r : Nat)
  | settleEv (k : Key) (o : Outcome)
  | cancel (k : Key)
  | reset (k : Key)
  | clear (k : Key)
  | regQuery (k : Key)
  | regController (k : Key)
  | clearCancelledEv (k : Key)
deriving DecidableEq, Repr

/-- One step of the module under an external event. -/
def step (s : QState) (e : Event) : QState × List Act :=
  match e with
  | Event.submit k r => queueRequest s k r
  | Event.settleEv k o => settle s k o
  | Event.cancel k => ((cancelRequest s k).1, (cancelRequest s k).2.1)
  | Event.reset k => ((resetRequest s k).1, (resetRequest s k).2.1)
  | Event.clear k => ((clearQueue s k).1, (clearQueue s k).2.1)
  | Event.regQuery k =>
      (if s.processingFlags k then setActiveQuery s k else s, [])
  | Event.regController k =>
      (if s.processingFlags k then setAbortController s k else s, [])
  | Event.clearCancelledEv k => (clearCancelled s k, [])

/-- Run a list of events, accumulating the action trace. -/
def run (s : QState) : List Event → QState × List Act
  | [] => (s, [])
  | e :: es =>
    let d1 := step s e
    let d2 := run d1.1 es
    (d2.1, d1.2 ++ d2.2)

/-- The state at module load: every map empty, every flag clear. -/
def initState : QState :=
  { pendingQueues := fun _ => [],
    processingFlags := fun _ => false,
    activeQueries := fun _ => false,
    activeAbortControllers := fun _ => false,
    cancelledChats := fun _ => false,
    executing := fun _ => none }

/-- The bounded recency cache (`src/utils/bounded-map.ts`): a JavaScript
`Map` (association list in insertion order, keys unique) plus a fixed
`maxSize` chosen at construction. -/
structure BoundedMap (K : Type) (V : Type) where
  maxSize : Nat
  entries : List (K × V)

/-- `new BoundedMap(maxSize)`: the empty cache. -/
def BoundedMap.empty {K V : Type} (maxSize : Nat) : BoundedMap K V :=
  { maxSize := maxSize, entries := [] }

/-- `size` getter. -/
def BoundedMap.size {K V : Type} (m : BoundedMap K V) : Nat :=
  m.entries.length

/-- `has(key)`. -/
def BoundedMap.hasKey {K V : Type} [DecidableEq K]
    (m : BoundedMap K V) (k : K) : Bool :=
  m.entries.any (fun p => p.1 = k)

/-- `get(key)`. -/
def BoundedMap.get {K V : Type} [DecidableEq K]
    (m : BoundedMap K V) (k : K) : Option V :=
  (m.entries.find? (fun p => p.1 = k)).map Prod.snd

/-- `set(key, value)`: if the key is present, delete it first so the
re-insert moves it to the end; else if at capacity, delete the oldest key
(the first in insertion order; a no-op on an empty map, where
`keys().next().value` is `undefined`); then append the pair. -/
def BoundedMap.set {K V : Type} [DecidableEq K]
    (m : BoundedMap K V) (k : K) (v : V) : BoundedMap K V :=
  let base : List (K × V) :=
    if m.hasKey k then m.entries.eraseP (fun p => p.1 = k)
    else if m.maxSize ≤ m.entries.length then
      match m.entries with
      | [] => []
      | p0 :: _ => m.entries.eraseP (fun p => p.1 = p0.1)
    else m.entries
  { maxSize := m.maxSize, entries := base ++ [(k, v)] }

/-- `delete(key)`: remove the entry with that key (if any), returning
whether it was present. -/
def BoundedMap.del {K V : Type} [DecidableEq K]
    (m : BoundedMap K V) (k : K) : BoundedMap K V × Bool :=
  ({ maxSize := m.maxSize, entries := m.entries.eraseP (fun p => p.1 = k) },
    m.hasKey k)

/-- `clear()`. -/
def BoundedMap.clearAll {K V : Type} (m : BoundedMap K V) : BoundedMap K V :=
  { maxSize := m.maxSize, entries := [] }

/-- One cache operation, for stating properties over arbitrary usage
sequences. -/
inductive MapOp (K V : Type) where
  | set (k : K) (v : V)
  | get (k : K)
  | del (k : K)
  | clear

/-- Apply one operation to the cache (`get` does not mutate). -/
def applyOp {K V : Type} [DecidableEq K]
    (m : BoundedMap K V) : MapOp K V → BoundedMap K V
  | MapOp.set k v => m.set k v
  | MapOp.get _ => m
  | MapOp.del k => (m.del k).1
  | MapOp.clear => m.clearAll

/-- Run a sequence of cache operations. -/
def runOps {K V : Type} [DecidableEq K]
    (m : BoundedMap K V) (ops : List (MapOp K V)) : BoundedMap K V :=
  ops.foldl applyOp m

/-! ### Basic lemmas about the key-indexed tables -/

theorem upd_self {α : Type} (f : Key → α) (k : Key) (v : α) : upd f k v k = v := by
  simp [upd]

theorem upd_ne {α : Type} (f : Key → α) (k : Key) (v : α) (k2 : Key)
    (h : k2 ≠ k) : upd f k v k2 = f k2 := by
  simp [upd, h]

/-- The processing flag for a key is set exactly while that key's dequeued
handler is being awaited. -/
def ProcExec (s : QState) : Prop :=
  ∀ k, s.processingFlags k = (s.executing k).isSome

theorem processQueue_procExec (s : QState) (k : Key) (h : ProcExec s) :
    ProcExec (processQueue s k).1 := by
  unfold processQueue
  split
  · exact h
  · split
    · exact h
    · intro k2
      by_cases hk : k2 = k
      · subst hk; simp [upd]
      · simp [upd, hk]
        exact h k2

theorem settleCleanup_procExec (s : QState) (k : Key) (h : ProcExec s) :
    ProcExec (settleCleanup s k) := by
  intro k2
  by_cases hk : k2 = k
  · subst hk; simp [settleCleanup, upd]
  · simp [settleCleanup, upd, hk]
    exact h k2

theorem settle_procExec (s : QState) (k : Key) (o : Outcome) (h : ProcExec s) :
    ProcExec (settle s k o).1 := by
  unfold settle
  split
  · exact h
  · simp only
    split
    · exact settleCleanup_procExec s k h
    · exact processQueue_procExec _ k (settleCleanup_procExec s k h)

theorem step_procExec (s : QState) (e : Event) (h : ProcExec s) :
    ProcExec (step s e).1 := by
  cases e with
  | submit k r =>
    exact processQueue_procExec _ k (fun k2 => h k2)
  | settleEv k o => exact settle_procExec s k o h
  | cancel k =>
    simp only [step, cancelRequest]
    split
    · exact fun k2 => h k2
    · split
      · exact fun k2 => h k2
      · exact h
  | reset k =>
    simp only [step, resetRequest]
    split
    · exact fun k2 => h k2
    · split
      · exact fun k2 => h k2
      · exact h
  | clear k =>
    simp only [step, clearQueue]
    exact fun k2 => h k2
  | regQuery k =>
    simp only [step]
    split
    · exact fun k2 => h k2
    · exact h
  | regController k =>
    simp only [step]
    split
    · exact fun k2 => h k2
    · exact h
  | clearCancelledEv k =>
    simp only [step, clearCancelled]
    exact fun k2 => h k2

theorem run_procExec (s : QState) (es : List Event) (h : ProcExec s) :
    ProcExec (run s es).1 := by
  induction es generalizing s with
  | nil => exact h
  | cons e es ih =>
    simp only [run]
    exact ih _ (step_procExec s e h)

theorem initState_procExec : ProcExec initState := by
  intro k
  simp [initState]

/-! ### Per-key start/settle alternation (mutual exclusion) -/

/-- Project an action to the per-key start/settle alphabet: `some (true, r)`
for the start of request `r`, `some (false, r)` for its settlement
(resolution or rejection of the executed handler). -/
def projK (k : Key) : Act → Option (Bool × Nat)
  | Act.start k2 r => if k2 = k then some (true, r) else none
  | Act.resolve k2 r => if k2 = k then some (false, r) else none
  | Act.rejectOp k2 r _ => if k2 = k then some (false, r) else none
  | _ => none

/-- The start/settle subtrace of a trace, for one key. -/
def projTrace (k : Key) (l : List Act) : List (Bool × Nat) :=
  l.filterMap (projK k)

/-- `altChain c l c2` holds when `l` is a strict alternation of starts and
settlements: from `c` (the request currently in flight, if any) each start
requires an idle slot, each settlement settles exactly the request in
flight, and `c2` is left in flight at the end. -/
def altChain : Option Nat → List (Bool × Nat) → Option Nat → Bool
  | c, [], c2 => c == c2
  | none, (true, r) :: l, c2 => altChain (some r) l c2
  | none, (false, _) :: _, _ => false
  | some _, (true, _) :: _, _ => false
  | some a, (false, r) :: l, c2 => a == r && altChain none l c2

theorem altChain_append (l1 l2 : List (Bool × Nat)) (a b c : Option Nat)
    (h1 : altChain a l1 b = true) (h2 : altChain b l2 c = true) :
    altChain a (l1 ++ l2) c = true := by
  induction l1 generalizing a with
  | nil =>
    have : a = b := by
      cases a <;> cases b <;> simp [altChain] at h1 <;> simp [h1]
    rw [List.nil_append, this]
    exact h2
  | cons p l1 ih =>
    obtain ⟨fl, r⟩ := p
    cases a with
    | none =>
      cases fl with
      | true =>
        simp only [altChain, List.cons_append] at h1 ⊢
        exact ih _ h1
      | false => simp [altChain] at h1
    | some a0 =>
      cases fl with
      | true => simp [altChain] at h1
      | false =>
        simp only [altChain, List.cons_append, Bool.and_eq_true, beq_iff_eq] at h1 ⊢
        exact ⟨h1.1, ih _ h1.2⟩

theorem altChain_refl (c : Option Nat) : altChain c [] c = true := by
  cases c <;> simp [altChain]

theorem projK_start_self (k : Key) (r : Nat) :
    projK k (Act.start k r) = some (true, r) := by
  simp [projK]

theorem projK_start_ne (k k2 : Key) (r : Nat) (h : k2 ≠ k) :
    projK k (Act.start k2 r) = none := by
  simp [projK, h]

theorem projK_resolve_self (k : Key) (r : Nat) :
    projK k (Act.resolve k r) = some (false, r) := by
  simp [projK]

theorem projK_resolve_ne (k k2 : Key) (r : Nat) (h : k2 ≠ k) :
    projK k (Act.resolve k2 r) = none := by
  simp [projK, h]

theorem projK_rejectOp_self (k : Key) (r : Nat) (e : JsError) :
    projK k (Act.rejectOp k r e) = some (false, r) := by
  simp [projK]

theorem projK_rejectOp_ne (k k2 : Key) (r : Nat) (e : JsError) (h : k2 ≠ k) :
    projK k (Act.rejectOp k2 r e) = none := by
  simp [projK, h]

theorem processQueue_chain (s : QState) (k2 k : Key) (h : ProcExec s) :
    altChain (s.executing k) (projTrace k (processQueue s k2).2)
      ((processQueue s k2).1.executing k) = true := by
  unfold processQueue
  split
  · exact altChain_refl _
  · split
    · exact altChain_refl _
    · rename_i hflag q r rest hq
      by_cases hk : k2 = k
      · subst hk
        have hnone : s.executing k2 = none := by
          have h2 := h k2
          simp [hflag] at h2
          exact h2
        simp [projTrace, List.filterMap_cons, projK_start_self, upd_self, hnone,
          altChain]
      · simp [projTrace, List.filterMap_cons, projK_start_ne k k2 r hk,
          upd_ne _ _ _ _ (Ne.symm hk)]
        exact altChain_refl _

theorem settleCleanup_executing_self (s : QState) (k : Key) :
    (settleCleanup s k).executing k = none := by
  simp [settleCleanup, upd_self]

theorem settleCleanup_executing_ne (s : QState) (k k2 : Key) (h : k2 ≠ k) :
    (settleCleanup s k).executing k2 = s.executing k2 := by
  simp [settleCleanup, upd_ne _ _ _ _ h]

theorem settle_chain (s : QState) (k2 k : Key) (o : Outcome) (h : ProcExec s) :
    altChain (s.executing k) (projTrace k (settle s k2 o).2)
      ((settle s k2 o).1.executing k) = true := by
  have hs1 : ProcExec (settleCleanup s k2) := settleCleanup_procExec s k2 h
  unfold settle
  split
  · exact altChain_refl _
  · rename_i r hr
    by_cases hk : k2 = k
    · subst hk
      have hA : projK k2 (match o with
          | Outcome.ok => Act.resolve k2 r
          | Outcome.threw v => Act.rejectOp k2 r (toRejectError v)) =
          some (false, r) := by
        cases o <;> simp [projK]
      rw [hr]
      simp only [projTrace, List.filterMap_cons, hA]
      split
      · simp [altChain, settleCleanup_executing_self]
      · have hch := processQueue_chain (settleCleanup s k2) k2 k2 hs1
        rw [settleCleanup_executing_self] at hch
        simp only [projTrace] at hch
        simp only [altChain, beq_self_eq_true, Bool.true_and]
        exact hch
    · have hA : projK k (match o with
          | Outcome.ok => Act.resolve k2 r
          | Outcome.threw v => Act.rejectOp k2 r (toRejectError v)) = none := by
        cases o <;> simp [projK, hk]
      simp only [projTrace, List.filterMap_cons, hA]
      have hexec : (settleCleanup s k2).executing k = s.executing k :=
        settleCleanup_executing_ne s k2 k (Ne.symm hk)
      split
      · simpa [hexec] using altChain_refl (s.executing k)
      · have hch := processQueue_chain (settleCleanup s k2) k2 k hs1
        rw [hexec] at hch
        simp only [projTrace] at hch
        exact hch

theorem filterMap_none {α β : Type} (l : List α) :
    l.filterMap (fun _ => (none : Option β)) = [] := by
  induction l with
  | nil => rfl
  | cons a l ih => simp [List.filterMap_cons, ih]

theorem step_chain (s : QState) (e : Event) (k : Key) (h : ProcExec s) :
    altChain (s.executing k) (projTrace k (step s e).2)
      ((step s e).1.executing k) = true := by
  cases e with
  | submit k2 r =>
    have hs1 : ProcExec { s with
        pendingQueues := upd s.pendingQueues k2 (s.pendingQueues k2 ++ [r]) } :=
      fun kk => h kk
    have hch := processQueue_chain _ k2 k hs1
    simp only [projTrace] at hch
    simp only [step, queueRequest, projTrace, List.filterMap_cons, projK]
    exact hch
  | settleEv k2 o =>
    simpa only [step] using settle_chain s k2 k o h
  | cancel k2 =>
    simp only [step, cancelRequest]
    split
    · simp [projTrace, projK, altChain]
    · split
      · simp [projTrace, projK, altChain]
      · simp [projTrace, altChain]
  | reset k2 =>
    simp only [step, resetRequest]
    split
    · cases hc : s.activeAbortControllers k2 <;>
        simp [hc, projTrace, projK, altChain]
    · split
      · simp [projTrace, projK, altChain]
      · simp [projTrace, altChain]
  | clear k2 =>
    simp only [step, clearQueue, projTrace, List.filterMap_map]
    have hcomp : (projK k ∘ fun r => Act.rejectCleared k2 r) =
        fun _ => (none : Option (Bool × Nat)) := by
      funext r
      simp [projK]
    rw [hcomp, filterMap_none]
    simp [altChain]
  | regQuery k2 =>
    simp only [step]
    split <;> simp [setActiveQuery, projTrace, altChain]
  | regController k2 =>
    simp only [step]
    split <;> simp [setAbortController, projTrace, altChain]
  | clearCancelledEv k2 =>
    simp [step, clearCancelled, projTrace, altChain]

theorem run_chain (s : QState) (es : List Event) (k : Key) (h : ProcExec s) :
    altChain (s.executing k) (projTrace k (run s es).2)
      ((run s es).1.executing k) = true := by
  induction es generalizing s with
  | nil => simp [run, projTrace, altChain]
  | cons e es ih =>
    simp only [run, projTrace, List.filterMap_append]
    exact altChain_append _ _ _ _ _
      (by simpa only [projTrace] using step_chain s e k h)
      (by simpa only [projTrace] using ih _ (step_procExec s e h))

/-! ### Per-key FIFO order of starts -/

/-- The requests enqueued for a key, in trace order. -/
def enqueuedList (k : Key) (l : List Act) : List Nat :=
  l.filterMap (fun a => match a with
    | Act.enqueue k2 r => if k2 = k then some r else none
    | _ => none)

/-- The requests whose handler was started for a key, in trace order. -/
def startedList (k : Key) (l : List Act) : List Nat :=
  l.filterMap (fun a => match a with
    | Act.start k2 r => if k2 = k then some r else none
    | _ => none)

theorem processQueue_fifo (s : QState) (k2 k : Key) :
    startedList k (processQueue s k2).2 ++ (processQueue s k2).1.pendingQueues k =
      s.pendingQueues k ∧
    enqueuedList k (processQueue s k2).2 = [] := by
  unfold processQueue
  split
  · simp [startedList, enqueuedList]
  · split
    · simp [startedList, enqueuedList]
    · rename_i hflag q r rest hq
      by_cases hk : k2 = k
      · subst hk
        simp [startedList, enqueuedList, List.filterMap_cons, upd_self, hq]
      · simp [startedList, enqueuedList, List.filterMap_cons, hk,
          upd_ne _ _ _ _ (Ne.symm hk)]

theorem step_fifo (s : QState) (e : Event) (k : Key) :
    startedList k (step s e).2 ++ (step s e).1.pendingQueues k =
      s.pendingQueues k ++ enqueuedList k (step s e).2 ∨
    (startedList k (step s e).2 = [] ∧ enqueuedList k (step s e).2 = [] ∧
      (step s e).1.pendingQueues k = []) := by
  cases e with
  | submit k2 r =>
    left
    have hpq := processQueue_fifo
      { s with pendingQueues := upd s.pendingQueues k2 (s.pendingQueues k2 ++ [r]) }
      k2 k
    simp only [step, queueRequest, startedList, enqueuedList,
      List.filterMap_cons] at hpq ⊢
    by_cases hk : k2 = k
    · subst hk
      simp only [if_pos rfl]
      rw [hpq.2]
      simp only [upd_self] at hpq
      simp [hpq.1]
    · simp only [if_neg hk]
      rw [upd_ne _ _ _ _ (Ne.symm hk)] at hpq
      simp [hpq.1, hpq.2]
  | settleEv k2 o =>
    left
    simp only [step]
    unfold settle
    split
    · simp [startedList, enqueuedList]
    · rename_i r hr
      have hpq := processQueue_fifo (settleCleanup s k2) k2 k
      have hq1 : (settleCleanup s k2).pendingQueues k = s.pendingQueues k := rfl
      cases o with
      | ok =>
        simp only [startedList, enqueuedList, List.filterMap_cons] at hpq ⊢
        split
        · simpa using hq1
        · rw [hq1] at hpq
          simp [hpq.1, hpq.2]
      | threw v =>
        simp only [startedList, enqueuedList, List.filterMap_cons] at hpq ⊢
        split
        · simpa using hq1
        · rw [hq1] at hpq
          simp [hpq.1, hpq.2]
  | cancel k2 =>
    left
    simp only [step, cancelRequest]
    split
    · simp [startedList, enqueuedList]
    · split
      · simp [startedList, enqueuedList]
      · simp [startedList, enqueuedList]
  | reset k2 =>
    left
    simp only [step, resetRequest]
    split
    · cases hc : s.activeAbortControllers k2 <;>
        simp [hc, startedList, enqueuedList]
    · split
      · simp [startedList, enqueuedList]
      · simp [startedList, enqueuedList]
  | clear k2 =>
    by_cases hk : k2 = k
    · right
      subst hk
      constructor
      · simp only [step, clearQueue, startedList, List.filterMap_map]
        have hcomp : ((fun a : Act => match a with
            | Act.start k3 r2 => if k3 = k2 then some r2 else none
            | _ => none) ∘ fun r => Act.rejectCleared k2 r) =
            fun _ => (none : Option Nat) := by
          funext r
          simp
        rw [hcomp, filterMap_none]
      · constructor
        · simp only [step, clearQueue, enqueuedList, List.filterMap_map]
          have hcomp : ((fun a : Act => match a with
              | Act.enqueue k3 r2 => if k3 = k2 then some r2 else none
              | _ => none) ∘ fun r => Act.rejectCleared k2 r) =
              fun _ => (none : Option Nat) := by
            funext r
            simp
          rw [hcomp, filterMap_none]
        · simp [step, clearQueue, upd_self]
    · left
      simp only [step, clearQueue, startedList, enqueuedList, List.filterMap_map]
      have hc1 : ((fun a : Act => match a with
          | Act.start k3 r2 => if k3 = k then some r2 else none
          | _ => none) ∘ fun r => Act.rejectCleared k2 r) =
          fun _ => (none : Option Nat) := by
        funext r
        simp
      have hc2 : ((fun a : Act => match a with
          | Act.enqueue k3 r2 => if k3 = k then some r2 else none
          | _ => none) ∘ fun r => Act.rejectCleared k2 r) =
          fun _ => (none : Option Nat) := by
        funext r
        simp
      rw [hc1, hc2, filterMap_none]
      simp [upd_ne _ _ _ _ (Ne.symm hk)]
  | regQuery k2 =>
    left
    simp only [step]
    split <;> simp [setActiveQuery, startedList, enqueuedList]
  | regController k2 =>
    left
    simp only [step]
    split <;> simp [setAbortController, startedList, enqueuedList]
  | clearCancelledEv k2 =>
    left
    simp [step, clearCancelled, startedList, enqueuedList]

theorem run_fifo (s : QState) (es : List Event) (k : Key) :
    List.Sublist
      (startedList k (run s es).2 ++ (run s es).1.pendingQueues k)
      (s.pendingQueues k ++ enqueuedList k (run s es).2) := by
  induction es generalizing s with
  | nil => simp [run, startedList, enqueuedList]
  | cons e es ih =>
    have hsplit_s : startedList k (run s (e :: es)).2 =
        startedList k (step s e).2 ++ startedList k (run (step s e).1 es).2 := by
      simp [run, startedList, List.filterMap_append]
    have hsplit_e : enqueuedList k (run s (e :: es)).2 =
        enqueuedList k (step s e).2 ++ enqueuedList k (run (step s e).1 es).2 := by
      simp [run, enqueuedList, List.filterMap_append]
    have hq : (run s (e :: es)).1 = (run (step s e).1 es).1 := by
      simp [run]
    rw [hsplit_s, hsplit_e, hq]
    have ih2 := ih (step s e).1
    rcases step_fifo s e k with hstep | hclr
    · have t1 : List.Sublist
          (startedList k (step s e).2 ++
            (startedList k (run (step s e).1 es).2 ++
              (run (step s e).1 es).1.pendingQueues k))
          (startedList k (step s e).2 ++
            ((step s e).1.pendingQueues k ++
              enqueuedList k (run (step s e).1 es).2)) :=
        ih2.append_left _
      have t2 : startedList k (step s e).2 ++
          ((step s e).1.pendingQueues k ++
            enqueuedList k (run (step s e).1 es).2) =
          (s.pendingQueues k ++ enqueuedList k (step s e).2) ++
            enqueuedList k (run (step s e).1 es).2 := by
        rw [← List.append_assoc, hstep]
      rw [t2] at t1
      rw [List.append_assoc]
      rw [List.append_assoc] at t1
      exact t1
    · obtain ⟨h1, h2, h3⟩ := hclr
      rw [h1, h2]
      rw [h3] at ih2
      simp only [List.nil_append] at ih2 ⊢
      exact ih2.trans (List.sublist_append_right _ _)

/-! ### Cancellation bookkeeping exists only while a call is in flight -/

/-- While no call is executing for a key, no query handle, no abort
controller and no cancellation mark are registered for it. -/
def IdleClean (s : QState) : Prop :=
  ∀ k, s.processingFlags k = false →
    s.activeQueries k = false ∧ s.activeAbortControllers k = false ∧
      s.cancelledChats k = false

theorem initState_idleClean : IdleClean initState := by
  intro k _
  simp [initState]

theorem processQueue_idleClean (s : QState) (k2 : Key) (h : IdleClean s) :
    IdleClean (processQueue s k2).1 := by
  unfold processQueue
  split
  · exact h
  · split
    · exact h
    · intro k hk
      by_cases hkk : k = k2
      · subst hkk
        simp [upd_self] at hk
      · simp only [upd_ne _ _ _ _ hkk] at hk
        exact h k hk

theorem step_idleClean (s : QState) (e : Event) (h : IdleClean s) :
    IdleClean (step s e).1 := by
  cases e with
  | submit k2 r =>
    exact processQueue_idleClean _ k2 (fun k hk => h k hk)
  | settleEv k2 o =>
    simp only [step]
    unfold settle
    split
    · exact h
    · have hclean : IdleClean (settleCleanup s k2) := by
        intro k hk
        by_cases hkk : k = k2
        · subst hkk
          simp [settleCleanup, upd_self]
        · simp only [settleCleanup, upd_ne _ _ _ _ hkk] at hk ⊢
          exact h k hk
      dsimp only
      split
      · exact hclean
      · exact processQueue_idleClean _ k2 hclean
  | cancel k2 =>
    simp only [step, cancelRequest]
    split
    · rename_i hq
      intro k hk
      by_cases hkk : k = k2
      · subst hkk
        simp only at hk
        have h0 := h k hk
        rw [h0.1] at hq
        simp at hq
      · simp only [upd_ne _ _ _ _ hkk] at *
        exact h k hk
    · split
      · rename_i hq hc
        intro k hk
        by_cases hkk : k = k2
        · subst hkk
          simp only at hk
          have h0 := h k hk
          rw [h0.2.1] at hc
          simp at hc
        · simp only [upd_ne _ _ _ _ hkk] at *
          exact h k hk
      · exact h
  | reset k2 =>
    simp only [step, resetRequest]
    split
    · rename_i hq
      intro k hk
      by_cases hkk : k = k2
      · subst hkk
        simp only at hk
        have h0 := h k hk
        rw [h0.1] at hq
        simp at hq
      · simp only [upd_ne _ _ _ _ hkk] at *
        exact h k hk
    · split
      · rename_i hq hc
        intro k hk
        by_cases hkk : k = k2
        · subst hkk
          simp only at hk
          have h0 := h k hk
          rw [h0.2.1] at hc
          simp at hc
        · simp only [upd_ne _ _ _ _ hkk] at *
          exact h k hk
      · exact h
  | clear k2 =>
    intro k hk
    exact h k hk
  | regQuery k2 =>
    simp only [step]
    split
    · rename_i hp
      intro k hk
      by_cases hkk : k = k2
      · subst hkk
        simp only [setActiveQuery] at hk
        rw [hk] at hp
        simp at hp
      · simp only [setActiveQuery, upd_ne _ _ _ _ hkk] at *
        exact h k hk
    · exact h
  | regController k2 =>
    simp only [step]
    split
    · rename_i hp
      intro k hk
      by_cases hkk : k = k2
      · subst hkk
        simp only [setAbortController] at hk
        rw [hk] at hp
        simp at hp
      · simp only [setAbortController, upd_ne _ _ _ _ hkk] at *
        exact h k hk
    · exact h
  | clearCancelledEv k2 =>
    simp only [step]
    intro k hk
    have h0 := h k hk
    by_cases hkk : k = k2
    · subst hkk
      simp only [clearCancelled]
      simp [upd_self, h0.1, h0.2.1]
    · simp only [clearCancelled, upd_ne _ _ _ _ hkk]
      exact h0

theorem run_idleClean (s : QState) (es : List Event) (h : IdleClean s) :
    IdleClean (run s es).1 := by
  induction es generalizing s with
  | nil => exact h
  | cons e es ih =>
    simp only [run]
    exact ih _ (step_idleClean s e h)

theorem processQueue_keeps_handles (s : QState) (k2 : Key) :
    (processQueue s k2).1.activeQueries = s.activeQueries ∧
    (processQueue s k2).1.activeAbortControllers = s.activeAbortControllers ∧
    (processQueue s k2).1.cancelledChats = s.cancelledChats := by
  unfold processQueue
  split
  · exact ⟨rfl, rfl, rfl⟩
  · split
    · exact ⟨rfl, rfl, rfl⟩
    · exact ⟨rfl, rfl, rfl⟩

/-- C3: whenever an in-flight call settles — by success, failure, or
cancellation — the processing flag is set false (in the cleanup, before any
re-drain) and the cooperative handle, the generic cancellation signal and
the cancellation mark for that key are all cleared unconditionally; in
particular no cancellation state survives into the post-settlement state
(and when the queue is empty the key stays non-processing). -/
theorem claim_c3_unconditional_cleanup (s : QState) (k : Key) (o : Outcome)
    (r : Nat) (h : s.executing k = some r) :
    isCancelled (settle s k o).1 k = false ∧
    (settle s k o).1.activeQueries k = false ∧
    (settle s k o).1.activeAbortControllers k = false ∧
    isProcessing (settleCleanup s k) k = false ∧
    (s.pendingQueues k = [] → isProcessing (settle s k o).1 k = false) := by
  have hpk := processQueue_keeps_handles (settleCleanup s k) k
  unfold settle
  rw [h]
  dsimp only
  split
  · rename_i hemp
    refine ⟨?_, ?_, ?_, ?_, ?_⟩
    · simp [isCancelled, settleCleanup, upd_self]
    · simp [settleCleanup, upd_self]
    · simp [settleCleanup, upd_self]
    · simp [isProcessing, settleCleanup, upd_self]
    · intro _
      simp [isProcessing, settleCleanup, upd_self]
  · rename_i hemp
    refine ⟨?_, ?_, ?_, ?_, ?_⟩
    · rw [isCancelled, hpk.2.2]
      simp [settleCleanup, upd_self]
    · rw [hpk.1]
      simp [settleCleanup, upd_self]
    · rw [hpk.2.1]
      simp [settleCleanup, upd_self]
    · simp [isProcessing, settleCleanup, upd_self]
    · intro hq
      exact absurd (by simp [settleCleanup, hq]) hemp

/-- C4: `clearQueue(sessionKey)` rejects exactly the calls still waiting in
that key's FIFO with a queue-cleared failure, empties the FIFO, returns the
number discarded, changes nothing else (in particular not the in-flight
call), and the in-flight call still settles normally afterward. -/
theorem claim_c4_clearQueue (s : QState) (k : Key) :
    (clearQueue s k).2.2 = getQueuePosition s k ∧
    (clearQueue s k).1.pendingQueues k = [] ∧
    (clearQueue s k).2.1 =
      (s.pendingQueues k).map (fun r => Act.rejectCleared k r) ∧
    (clearQueue s k).1.executing = s.executing ∧
    (clearQueue s k).1.processingFlags = s.processingFlags ∧
    (clearQueue s k).1.activeQueries = s.activeQueries ∧
    (clearQueue s k).1.activeAbortControllers = s.activeAbortControllers ∧
    (clearQueue s k).1.cancelledChats = s.cancelledChats ∧
    (∀ r : Nat, s.executing k = some r →
      ((settle (clearQueue s k).1 k Outcome.ok).2).head? =
        some (Act.resolve k r)) := by
  refine ⟨rfl, by simp [clearQueue, upd_self], rfl, rfl, rfl, rfl, rfl, rfl, ?_⟩
  intro r h
  have hex : (clearQueue s k).1.executing k = some r := h
  unfold settle
  rw [hex]
  simp

/-- C5: `cancelRequest(sessionKey)` marks the session cancelled first, then
issues the cooperative interrupt when a query handle is registered (firing
no generic signal in that case), and fires the generic abort signal only
when no handle exists but a controller does. -/
theorem claim_c5_cancel_prefers_handle (s : QState) (k : Key) :
    (s.activeQueries k = true →
      (cancelRequest s k).2.1 = [Act.markCancelled k, Act.interrupt k] ∧
      isCancelled (cancelRequest s k).1 k = true ∧
      Act.abortSignal k ∉ (cancelRequest s k).2.1) ∧
    (s.activeQueries k = false → s.activeAbortControllers k = true →
      (cancelRequest s k).2.1 = [Act.markCancelled k, Act.abortSignal k] ∧
      isCancelled (cancelRequest s k).1 k = true) := by
  constructor
  · intro hq
    simp [cancelRequest, hq, isCancelled, upd_self]
  · intro hq hc
    simp [cancelRequest, hq, hc, isCancelled, upd_self]

/-- C6: `resetRequest(sessionKey)` performs the same cooperative interrupt
as the soft cancel and additionally fires the generic abort signal even when
a handle existed (whenever a controller is registered), marks the session
cancelled first, clears both registrations, and returns `true` iff a live
handle or signal existed. -/
theorem claim_c6_reset (s : QState) (k : Key) :
    ((resetRequest s k).2.2 = true ↔
      (s.activeQueries k = true ∨ s.activeAbortControllers k = true)) ∧
    (s.activeQueries k = true → s.activeAbortControllers k = true →
      (resetRequest s k).2.1 =
        [Act.markCancelled k, Act.interrupt k, Act.abortSignal k]) ∧
    (s.activeQueries k = true → s.activeAbortControllers k = false →
      (resetRequest s k).2.1 = [Act.markCancelled k, Act.interrupt k]) ∧
    (s.activeQueries k = false → s.activeAbortControllers k = true →
      (resetRequest s k).2.1 = [Act.markCancelled k, Act.abortSignal k]) ∧
    ((resetRequest s k).2.2 = true → isCancelled (resetRequest s k).1 k = true) ∧
    (s.activeQueries k = true →
      (resetRequest s k).1.activeQueries k = false ∧
      (resetRequest s k).1.activeAbortControllers k = false) := by
  cases hq : s.activeQueries k <;> cases hc : s.activeAbortControllers k <;>
    simp [resetRequest, hq, hc, isCancelled, upd_self]

/-- C8 (counterexample to the claim as stated): an operation can throw a
non-`Error` value; `processQueue` then rejects with a freshly constructed
`Error` wrapping its string form, not with the thrown value itself.  After
one submitted call for key `a`, settling its handler with the thrown
non-`Error` value `boom` rejects the caller with the wrapped error
`Error(boom)`, and that rejection value differs from the thrown value. -/
theorem claim_c8_counterexample :
    (settle (run initState [Event.submit "a" 0]).1 "a"
        (Outcome.threw (JsValue.other "boom"))).2 =
      [Act.rejectOp "a" 0 (JsError.mk "boom")] ∧
    JsValue.other "boom" ≠ JsValue.jsErr (JsError.mk "boom") := by
  constructor
  · rfl
  · decide

/-- C8 (amended): an `Error` value thrown by the operation is propagated
verbatim to that call's caller; a thrown non-`Error` value is rejected as a
new `Error` carrying its string form; in either case the rejection does not
abort the queued calls for that key, whose head starts immediately
afterward. -/
theorem claim_c8_error_propagation (s : QState) (k : Key) (r : Nat)
    (v : JsValue) (h : s.executing k = some r) :
    ((settle s k (Outcome.threw v)).2).head? =
      some (Act.rejectOp k r (toRejectError v)) ∧
    (∀ e : JsError, v = JsValue.jsErr e → toRejectError v = e) ∧
    (∀ r2 rest, s.pendingQueues k = r2 :: rest →
      (settle s k (Outcome.threw v)).2 =
        [Act.rejectOp k r (toRejectError v), Act.start k r2] ∧
      (settle s k (Outcome.threw v)).1.executing k = some r2) := by
  refine ⟨?_, ?_, ?_⟩
  · unfold settle
    rw [h]
    simp
  · intro e he
    subst he
    rfl
  · intro r2 rest hq
    have hq1 : (settleCleanup s k).pendingQueues k = r2 :: rest := hq
    unfold settle
    rw [h]
    dsimp only
    rw [hq1]
    have hflag : (settleCleanup s k).processingFlags k = false := by
      simp [settleCleanup, upd_self]
    simp [processQueue, hflag, hq1, upd_self]

/-- C10: a successful soft cancel via the query handle deregisters the
handle at once, while the call is still in flight (the executing slot is
untouched); a second `cancelRequest` during the same call therefore issues
no cooperative interrupt: it fires the generic abort signal when a
controller is registered, and returns `false` when none is. -/
theorem claim_c10_second_cancel (s : QState) (k : Key)
    (h : s.activeQueries k = true) :
    (cancelRequest s k).2.2 = true ∧
    (cancelRequest s k).1.activeQueries k = false ∧
    (cancelRequest s k).1.executing k = s.executing k ∧
    (cancelRequest s k).1.activeAbortControllers k =
      s.activeAbortControllers k ∧
    Act.interrupt k ∉ (cancelRequest (cancelRequest s k).1 k).2.1 ∧
    (s.activeAbortControllers k = true →
      (cancelRequest (cancelRequest s k).1 k).2.1 =
        [Act.markCancelled k, Act.abortSignal k] ∧
      (cancelRequest (cancelRequest s k).1 k).2.2 = true) ∧
    (s.activeAbortControllers k = false →
      (cancelRequest (cancelRequest s k).1 k).2.2 = false ∧
      (cancelRequest (cancelRequest s k).1 k).2.1 = []) := by
  cases hc : s.activeAbortControllers k <;>
    simp [cancelRequest, h, hc, upd_self]

/-- C1: for every session key, at most one queued call executes at a time:
after any run of the module from its initial state, `isProcessing` is true
iff a handler for that key is being awaited; the per-key trace of starts and
settlements strictly alternates (so a start occurs only when the previous
call for that key has settled and, the start being emitted by the
post-cleanup drain, after its cleanup has run); and a submission while the
key is processing only enqueues — it emits no start. -/
theorem claim_c1_mutual_exclusion (es : List Event) (k : Key) :
    (isProcessing (run initState es).1 k = true ↔
      ((run initState es).1.executing k).isSome = true) ∧
    altChain none (projTrace k (run initState es).2)
      ((run initState es).1.executing k) = true ∧
    (∀ r : Nat, isProcessing (run initState es).1 k = true →
      (step (run initState es).1 (Event.submit k r)).2 = [Act.enqueue k r]) := by
  have hpe := run_procExec initState es initState_procExec
  refine ⟨?_, ?_, ?_⟩
  · rw [isProcessing, hpe k]
  · have hch := run_chain initState es k initState_procExec
    have h0 : initState.executing k = none := rfl
    rw [h0] at hch
    exact hch
  · intro r hp
    rw [isProcessing] at hp
    simp [step, queueRequest, processQueue, hp]

/-- C2: for a fixed session key the handlers of submitted calls start in
exactly the order their submissions were enqueued — the start sequence is a
sublist (order-preserving selection) of the enqueue sequence — and when the
submitted requests are pairwise distinct, no request is ever started twice. -/
theorem claim_c2_fifo (es : List Event) (k : Key) :
    List.Sublist (startedList k (run initState es).2)
      (enqueuedList k (run initState es).2) ∧
    ((enqueuedList k (run initState es).2).Nodup →
      (startedList k (run initState es).2).Nodup ∧
      ∀ r : Nat, (startedList k (run initState es).2).count r ≤ 1) := by
  have hf := run_fifo initState es k
  have h0 : initState.pendingQueues k = [] := rfl
  rw [h0, List.nil_append] at hf
  have hsub : List.Sublist (startedList k (run initState es).2)
      (enqueuedList k (run initState es).2) :=
    (List.sublist_append_left _ _).trans hf
  refine ⟨hsub, fun hnd => ?_⟩
  have hnd2 : (startedList k (run initState es).2).Nodup := hnd.sublist hsub
  exact ⟨hnd2, fun r => List.nodup_iff_count_le_one.mp hnd2 r⟩

/-- C7: `cancelRequest(sessionKey)` returns `true` iff a live query handle
or abort controller existed for that key; in any reachable state where
nothing is in flight for the key it returns `false`, changes nothing, and
repeating it returns `false` again. -/
theorem claim_c7_cancel_idle_noop (es : List Event) (k : Key) :
    ((cancelRequest (run initState es).1 k).2.2 = true ↔
      ((run initState es).1.activeQueries k = true ∨
        (run initState es).1.activeAbortControllers k = true)) ∧
    (isProcessing (run initState es).1 k = false →
      (cancelRequest (run initState es).1 k).2.2 = false ∧
      (cancelRequest (run initState es).1 k).1 = (run initState es).1 ∧
      (cancelRequest (cancelRequest (run initState es).1 k).1 k).2.2 =
        false) := by
  have hic := run_idleClean initState es initState_idleClean
  constructor
  · cases hq : (run initState es).1.activeQueries k <;>
      cases hc : (run initState es).1.activeAbortControllers k <;>
      simp [cancelRequest, hq, hc]
  · intro hp
    rw [isProcessing] at hp
    obtain ⟨hq, hc, _⟩ := hic k hp
    have hstate : (cancelRequest (run initState es).1 k).1 =
        (run initState es).1 := by
      simp [cancelRequest, hq, hc]
    refine ⟨by simp [cancelRequest, hq, hc], hstate, ?_⟩
    rw [hstate]
    simp [cancelRequest, hq, hc]

/-! ### Bounded recency cache -/

theorem length_eraseP_le {α : Type} (p : α → Bool) (l : List α) :
    (List.eraseP p l).length ≤ l.length :=
  (List.eraseP_sublist l).length_le

theorem BoundedMap.entries_set_of_has {K V : Type} [DecidableEq K]
    (m : BoundedMap K V) (k : K) (v : V) (h : m.hasKey k = true) :
    (m.set k v).entries =
      m.entries.eraseP (fun p => p.1 = k) ++ [(k, v)] := by
  simp only [BoundedMap.set, h]
  rfl

theorem BoundedMap.size_set_of_has {K V : Type} [DecidableEq K]
    (m : BoundedMap K V) (k : K) (v : V) (h : m.hasKey k = true) :
    (m.set k v).size = m.size := by
  obtain ⟨p, hp, hpk⟩ := List.any_eq_true.mp h
  have hpk2 : (fun q : K × V => decide (q.1 = k)) p = true := hpk
  have hlen := @List.length_eraseP_add_one (K × V)
    (fun q => decide (q.1 = k)) m.entries p hp hpk2
  rw [BoundedMap.size, BoundedMap.entries_set_of_has m k v h,
    List.length_append]
  simp only [List.length_singleton]
  rw [hlen]
  rfl

theorem BoundedMap.set_evicts_oldest {K V : Type} [DecidableEq K]
    (m : BoundedMap K V) (k : K) (v : V) (hN : 1 ≤ m.maxSize)
    (hsz : m.size = m.maxSize) (hh : m.hasKey k = false) :
    (m.set k v).entries = m.entries.tail ++ [(k, v)] ∧
    (m.set k v).size = m.maxSize := by
  have hfull : m.maxSize ≤ m.entries.length := le_of_eq hsz.symm
  have hpos : 1 ≤ m.entries.length := le_trans hN hfull
  obtain ⟨p0, tl, hcons⟩ : ∃ p0 tl, m.entries = p0 :: tl := by
    cases hc : m.entries with
    | nil =>
      rw [hc] at hpos
      simp at hpos
    | cons p0 tl => exact ⟨p0, tl, rfl⟩
  have hbase : (m.set k v).entries = tl ++ [(k, v)] := by
    simp only [BoundedMap.set, hh]
    rw [if_neg (by simp), if_pos hfull, hcons]
    dsimp only
    rw [List.eraseP_cons_of_pos (by simp)]
  constructor
  · rw [hbase, hcons]
    rfl
  · rw [BoundedMap.size, hbase, List.length_append]
    simp only [List.length_singleton]
    have : m.entries.length = tl.length + 1 := by
      rw [hcons]
      rfl
    rw [← hsz, BoundedMap.size, this]

theorem BoundedMap.size_set_le {K V : Type} [DecidableEq K]
    (m : BoundedMap K V) (k : K) (v : V) (hN : 1 ≤ m.maxSize)
    (h : m.size ≤ m.maxSize) : (m.set k v).size ≤ m.maxSize := by
  by_cases hh : m.hasKey k
  · rw [BoundedMap.size_set_of_has m k v hh]
    exact h
  · by_cases hfull : m.size = m.maxSize
    · rw [(BoundedMap.set_evicts_oldest m k v hN hfull
        (Bool.not_eq_true _ ▸ eq_false_of_ne_true hh)).2]
    · have hlt : m.entries.length < m.maxSize :=
        lt_of_le_of_ne h hfull
      have hbase : (m.set k v).entries = m.entries ++ [(k, v)] := by
        simp only [BoundedMap.set, eq_false_of_ne_true hh]
        rw [if_neg (by simp)]
        rw [if_neg (by omega)]
      rw [BoundedMap.size, hbase, List.length_append]
      simp only [List.length_singleton]
      omega

theorem BoundedMap.set_getLast {K V : Type} [DecidableEq K]
    (m : BoundedMap K V) (k : K) (v : V) :
    (m.set k v).entries.getLast? = some (k, v) := by
  simp only [BoundedMap.set]
  exact List.getLast?_concat _

theorem BoundedMap.set_hasKey_other {K V : Type} [DecidableEq K]
    (m : BoundedMap K V) (k : K) (v : V) (k2 : K) (hne : k2 ≠ k)
    (hh : m.hasKey k = true) :
    ((m.set k v).hasKey k2 = true ↔ m.hasKey k2 = true) := by
  rw [BoundedMap.hasKey, BoundedMap.entries_set_of_has m k v hh,
    List.any_append]
  simp only [Bool.or_eq_true, List.any_eq_true]
  constructor
  · rintro (⟨p, hp, hpk⟩ | ⟨p, hp, hpk⟩)
    · exact List.any_eq_true.mpr ⟨p, (List.eraseP_sublist _).mem hp, hpk⟩
    · simp at hp
      subst hp
      simp at hpk
      exact absurd hpk.symm hne
  · intro hany
    obtain ⟨p, hp, hpk⟩ := List.any_eq_true.mp hany
    left
    have hpkk : ¬ ((fun q : K × V => decide (q.1 = k)) p = true) := by
      simp at hpk ⊢
      rw [hpk]
      exact hne
    have hmem : p ∈ List.eraseP (fun q : K × V => decide (q.1 = k)) m.entries :=
      (@List.mem_eraseP_of_neg (K × V) (fun q => decide (q.1 = k)) p
        m.entries hpkk).mpr hp
    exact ⟨p, hmem, hpk⟩

theorem applyOp_maxSize {K V : Type} [DecidableEq K]
    (m : BoundedMap K V) (op : MapOp K V) :
    (applyOp m op).maxSize = m.maxSize := by
  cases op with
  | set k v => simp only [applyOp, BoundedMap.set]
  | get k => rfl
  | del k => rfl
  | clear => rfl

theorem applyOp_size_le {K V : Type} [DecidableEq K]
    (m : BoundedMap K V) (op : MapOp K V) (hN : 1 ≤ m.maxSize)
    (h : m.size ≤ m.maxSize) : (applyOp m op).size ≤ m.maxSize := by
  cases op with
  | set k v => exact BoundedMap.size_set_le m k v hN h
  | get k => exact h
  | del k => exact le_trans (length_eraseP_le _ _) h
  | clear =>
    simp [applyOp, BoundedMap.clearAll, BoundedMap.size]

theorem runOps_size_le {K V : Type} [DecidableEq K]
    (m : BoundedMap K V) (ops : List (MapOp K V)) (hN : 1 ≤ m.maxSize)
    (h : m.size ≤ m.maxSize) :
    (runOps m ops).size ≤ m.maxSize ∧ (runOps m ops).maxSize = m.maxSize := by
  induction ops generalizing m with
  | nil => exact ⟨h, rfl⟩
  | cons op ops ih =>
    have hm := applyOp_maxSize m op
    have ih2 := ih (applyOp m op) (by rw [hm]; exact hN)
      (by rw [hm]; exact applyOp_size_le m op hN h)
    rw [hm] at ih2
    exact ih2

/-- C9 (counterexample to the claim as stated): the constructor accepts
capacity 0, and `set` on an empty capacity-0 cache inserts without being
able to evict (`keys().next().value` is `undefined`), leaving 1 entry —
more than the capacity.  So the bound does not hold for every capacity `N`
fixed at construction. -/
theorem claim_c9_counterexample :
    (runOps (BoundedMap.empty 0 : BoundedMap Nat Nat) [MapOp.set 1 1]).size
      = 1 ∧
    ¬ ((runOps (BoundedMap.empty 0 : BoundedMap Nat Nat)
      [MapOp.set 1 1]).size ≤ 0) := by
  decide

/-- C9 (amended): for every capacity `N ≥ 1` fixed at construction, the
cache never holds more than `N` entries after any sequence of
set/get/delete/clear operations; inserting a new key when exactly `N`
entries are held evicts precisely the oldest entry in insertion order (the
head of the entry list, i.e. the oldest key not since re-set) and stays at
`N`; and re-setting an existing key keeps the total count, puts that key in
the newest position, and evicts no other key. -/
theorem claim_c9_bounded_cache (K V : Type) [DecidableEq K] (N : Nat)
    (hN : 1 ≤ N) (ops : List (MapOp K V)) :
    (runOps (BoundedMap.empty N : BoundedMap K V) ops).size ≤ N ∧
    (∀ k v, (runOps (BoundedMap.empty N : BoundedMap K V) ops).size = N →
      (runOps (BoundedMap.empty N : BoundedMap K V) ops).hasKey k = false →
      ((runOps (BoundedMap.empty N : BoundedMap K V) ops).set k v).entries =
        (runOps (BoundedMap.empty N : BoundedMap K V) ops).entries.tail ++
          [(k, v)] ∧
      ((runOps (BoundedMap.empty N : BoundedMap K V) ops).set k v).size = N) ∧
    (∀ k v,
      (runOps (BoundedMap.empty N : BoundedMap K V) ops).hasKey k = true →
      ((runOps (BoundedMap.empty N : BoundedMap K V) ops).set k v).size =
        (runOps (BoundedMap.empty N : BoundedMap K V) ops).size ∧
      ((runOps (BoundedMap.empty N : BoundedMap K V) ops).set k
        v).entries.getLast? = some (k, v) ∧
      (∀ k2, k2 ≠ k →
        (((runOps (BoundedMap.empty N : BoundedMap K V) ops).set k
            v).hasKey k2 = true ↔
          (runOps (BoundedMap.empty N : BoundedMap K V) ops).hasKey k2 =
            true))) := by
  have hinv := runOps_size_le (BoundedMap.empty N : BoundedMap K V) ops hN
    (by simp [BoundedMap.empty, BoundedMap.size])
  have hmax : (runOps (BoundedMap.empty N : BoundedMap K V) ops).maxSize =
      N := hinv.2
  refine ⟨hinv.1, ?_, ?_⟩
  · intro k v hsz hh
    have hev := BoundedMap.set_evicts_oldest
      (runOps (BoundedMap.empty N : BoundedMap K V) ops) k v
      (by rw [hmax]; exact hN) (by rw [hmax]; exact hsz) hh
    exact ⟨hev.1, hev.2.trans hmax⟩
  · intro k v hh
    refine ⟨BoundedMap.size_set_of_has _ k v hh,
      BoundedMap.set_getLast _ k v, ?_⟩
    intro k2 hne
    exact BoundedMap.set_hasKey_other _ k v k2 hne hh

/-- Witness for C1: after one submitted call for key `a` the key is
processing, and a second submission only enqueues. -/
theorem claim_c1_witness :
    (step (run initState [Event.submit "a" 0]).1 (Event.submit "a" 1)).2 =
      [Act.enqueue "a" 1] :=
  (claim_c1_mutual_exclusion [Event.submit "a" 0] "a").2.2 1 (by decide)

/-- Witness for C2: submitting requests 0 and 1 and settling the first
leaves a duplicate-free start list for key `a`. -/
theorem claim_c2_witness :
    (startedList "a" (run initState [Event.submit "a" 0, Event.submit "a" 1,
      Event.settleEv "a" Outcome.ok]).2).Nodup :=
  ((claim_c2_fifo [Event.submit "a" 0, Event.submit "a" 1,
    Event.settleEv "a" Outcome.ok] "a").2 (by decide)).1

/-- Witness for C3: settling the single in-flight call for key `a` clears
the cancellation mark and leaves the key idle. -/
theorem claim_c3_witness :
    isCancelled (settle (run initState [Event.submit "a" 0]).1 "a"
      Outcome.ok).1 "a" = false ∧
    isProcessing (settle (run initState [Event.submit "a" 0]).1 "a"
      Outcome.ok).1 "a" = false :=
  ⟨(claim_c3_unconditional_cleanup (run initState [Event.submit "a" 0]).1
      "a" Outcome.ok 0 (by decide)).1,
    (claim_c3_unconditional_cleanup (run initState [Event.submit "a" 0]).1
      "a" Outcome.ok 0 (by decide)).2.2.2.2 (by decide)⟩

/-- Witness for C4: with request 0 in flight and request 1 queued for key
`a`, clearing the queue leaves the in-flight call to settle normally. -/
theorem claim_c4_witness :
    ((settle (clearQueue (run initState [Event.submit "a" 0,
      Event.submit "a" 1]).1 "a").1 "a" Outcome.ok).2).head? =
      some (Act.resolve "a" 0) :=
  (claim_c4_clearQueue (run initState [Event.submit "a" 0,
    Event.submit "a" 1]).1 "a").2.2.2.2.2.2.2.2 0 (by decide)

/-- Witness for C5: with a query handle registered the cancel marks then
interrupts; with only a controller registered it marks then aborts. -/
theorem claim_c5_witness :
    (cancelRequest (run initState [Event.submit "a" 0,
      Event.regQuery "a"]).1 "a").2.1 =
      [Act.markCancelled "a", Act.interrupt "a"] ∧
    (cancelRequest (run initState [Event.submit "b" 0,
      Event.regController "b"]).1 "b").2.1 =
      [Act.markCancelled "b", Act.abortSignal "b"] :=
  ⟨((claim_c5_cancel_prefers_handle (run initState [Event.submit "a" 0,
      Event.regQuery "a"]).1 "a").1 (by decide)).1,
    ((claim_c5_cancel_prefers_handle (run initState [Event.submit "b" 0,
      Event.regController "b"]).1 "b").2 (by decide) (by decide)).1⟩

/-- Witness for C6: with both a query handle and a controller registered,
the reset marks, interrupts, and also fires the abort signal. -/
theorem claim_c6_witness :
    (resetRequest (run initState [Event.submit "c" 0, Event.regQuery "c",
      Event.regController "c"]).1 "c").2.1 =
      [Act.markCancelled "c", Act.interrupt "c", Act.abortSignal "c"] :=
  (claim_c6_reset (run initState [Event.submit "c" 0, Event.regQuery "c",
    Event.regController "c"]).1 "c").2.1 (by decide) (by decide)

/-- Witness for C7: cancelling an idle key (its only call already settled)
returns `false` and leaves the state untouched. -/
theorem claim_c7_witness :
    (cancelRequest (run initState [Event.submit "a" 0,
      Event.settleEv "a" Outcome.ok]).1 "a").2.2 = false ∧
    (cancelRequest (run initState [Event.submit "a" 0,
      Event.settleEv "a" Outcome.ok]).1 "a").1 =
      (run initState [Event.submit "a" 0, Event.settleEv "a" Outcome.ok]).1 :=
  ⟨((claim_c7_cancel_idle_noop [Event.submit "a" 0,
      Event.settleEv "a" Outcome.ok] "a").2 (by decide)).1,
    ((claim_c7_cancel_idle_noop [Event.submit "a" 0,
      Event.settleEv "a" Outcome.ok] "a").2 (by decide)).2.1⟩

/-- Witness for C8 (amended): a thrown `Error` is propagated unchanged and
the queued request 1 starts right after the rejection. -/
theorem claim_c8_witness :
    (settle (run initState [Event.submit "a" 0, Event.submit "a" 1]).1 "a"
      (Outcome.threw (JsValue.jsErr (JsError.mk "boom")))).2 =
      [Act.rejectOp "a" 0 (JsError.mk "boom"), Act.start "a" 1] :=
  ((claim_c8_error_propagation (run initState [Event.submit "a" 0,
    Event.submit "a" 1]).1 "a" 0 (JsValue.jsErr (JsError.mk "boom"))
    (by decide)).2.2 1 [] (by decide)).1

/-- Witness for C9 (amended): a capacity-2 cache holding keys 1 and 2 stays
within bound, evicts its oldest entry on inserting key 3, and keeps its
size when key 1 is re-set. -/
theorem claim_c9_witness :
    (runOps (BoundedMap.empty 2 : BoundedMap Nat Nat)
      [MapOp.set 1 10, MapOp.set 2 20]).size ≤ 2 ∧
    ((runOps (BoundedMap.empty 2 : BoundedMap Nat Nat)
      [MapOp.set 1 10, MapOp.set 2 20]).set 3 30).entries =
      (runOps (BoundedMap.empty 2 : BoundedMap Nat Nat)
        [MapOp.set 1 10, MapOp.set 2 20]).entries.tail ++ [(3, 30)] ∧
    ((runOps (BoundedMap.empty 2 : BoundedMap Nat Nat)
      [MapOp.set 1 10, MapOp.set 2 20]).set 1 11).size =
      (runOps (BoundedMap.empty 2 : BoundedMap Nat Nat)
        [MapOp.set 1 10, MapOp.set 2 20]).size :=
  ⟨(claim_c9_bounded_cache Nat Nat 2 (by decide)
      [MapOp.set 1 10, MapOp.set 2 20]).1,
    ((claim_c9_bounded_cache Nat Nat 2 (by decide)
      [MapOp.set 1 10, MapOp.set 2 20]).2.1 3 30 (by decide) (by decide)).1,
    ((claim_c9_bounded_cache Nat Nat 2 (by decide)
      [MapOp.set 1 10, MapOp.set 2 20]).2.2 1 11 (by decide)).1⟩

/-- Witness for C10: after a soft cancel of a call that registered both a
handle and a controller, a second cancel issues no interrupt but fires the
abort signal. -/
theorem claim_c10_witness :
    Act.interrupt "a" ∉ (cancelRequest (cancelRequest (run initState
      [Event.submit "a" 0, Event.regQuery "a", Event.regController "a"]).1
      "a").1 "a").2.1 ∧
    (cancelRequest (cancelRequest (run initState [Event.submit "a" 0,
      Event.regQuery "a", Event.regController "a"]).1 "a").1 "a").2.1 =
      [Act.markCancelled "a", Act.abortSignal "a"] :=
  ⟨(claim_c10_second_cancel (run initState [Event.submit "a" 0,
      Event.regQuery "a", Event.regController "a"]).1 "a"
      (by decide)).2.2.2.2.1,
    ((claim_c10_second_cancel (run initState [Event.submit "a" 0,
      Event.regQuery "a", Event.regController "a"]).1 "a"
      (by decide)).2.2.2.2.2.1 (by decide)).1⟩
